import Mathlib

/-!
Verification of the DataTable core from src/textual/widgets/_datatable.py:
the table model (columns, row dict, row_count), the dimension calculator
(_update_dimensions), the bounded cell render cache, the line composer
(_render_line) and the viewport renderer (render_lines).

The host collaborators that the source delegates to (the rich console's
cell render, Segment.apply_style, Segment.adjust_line_length, the
_segment_tools line_crop helper, the LRU cache internals, the Header
style query, the content region width, the scroll offset and the widget
colors) are not part of this source file; they are modelled from the
spec, at styled-character granularity: a line is a list of characters
each carrying an optional style, which is the fully split form of the
spec's segments (a run of characters sharing one style), so byte
identity of rendered lines is plain list equality.
-/

/-- A terminal style, standing in for a rich Style: optional foreground
color, background color and bold attribute. -/
structure Style where
  color : Option Nat := none
  bgcolor : Option Nat := none
  bold : Option Bool := none
deriving DecidableEq, Repr

/-- Modelled from the spec: style combination for the host's "apply a
style over a run of styled text" primitive. The second style's set
attributes win, so applying a base style under a segment's own style
keeps the segment's explicit styling. -/
def Style.add (s t : Style) : Style :=
  { color := t.color.orElse (fun _ => s.color)
    bgcolor := t.bgcolor.orElse (fun _ => s.bgcolor)
    bold := t.bold.orElse (fun _ => s.bold) }

/-- A styled line at character granularity: each character with its
optional style. -/
abbrev Line := List (Char × Option Style)

/-- A raw cell value: the cell's text content. -/
abbrev CellValue := List Char

/-- A data row: one raw cell value per column, in column-index order. -/
abbrev Row := List CellValue

/-- Modelled from the spec (Segment.apply_style): layer a style under
every styled character; a character with no style of its own takes the
applied style, otherwise its own style is kept on top of it. -/
def applyStyle (base : Style) (l : Line) : Line :=
  l.map (fun p => (p.1, some (match p.2 with
    | none => base
    | some s => Style.add base s)))

/-- Modelled from the spec (line_crop from _segment_tools, which is not
part of this source): clip a styled line to the character window
[start, stop), splitting at character boundaries; positions outside the
line contribute nothing. -/
def lineCrop (l : Line) (start stop : Int) : Line :=
  (l.drop start.toNat).take (stop - (start.toNat : Int)).toNat

/-- Modelled from the spec (Segment.adjust_line_length): pad a line with
default-styled spaces if it is shorter than the target width, truncate
it if longer, so the result always has exactly the target width. -/
def adjustLineLength (l : Line) (width : Nat) : Line :=
  if width ≤ l.length then l.take width
  else l ++ List.replicate (width - l.length) (' ', (none : Option Style))

/-- Modelled from the spec (the host console rendering Padding(cell,(0,1))
into a width-by-one rectangle): the raw cell text with one blank column
of padding on each side, clipped or padded to the column width; this is
the single line of the height-1 render. -/
def renderCellInto (content : CellValue) (width : Nat) : Line :=
  adjustLineLength
    ((' ', (none : Option Style)) ::
      adjustLineLength (content.map (fun c => (c, none))) (width - 2) ++
      [(' ', (none : Option Style))])
    width

/-- Column (the source's dataclass): label text, display width, visible
flag and stable index. The source defaults visible to False and never
reads the flag in any operation. -/
structure Column where
  label : CellValue
  width : Nat
  visible : Bool := false
  index : Nat := 0
deriving DecidableEq, Repr

/-- The DataTable state: the column list, the row-key to row dict
(modelled as an insertion-ordered association list, like a Python dict),
row_count, the bounded cell render cache, the reactive show_header /
fixed_rows / fixed_columns settings and the stored virtual size. -/
structure DataTable where
  columns : List Column := []
  data : List (Int × Row) := []
  row_count : Nat := 0
  cellRenderCache : List ((Int × Nat) × Line) := []
  show_header : Bool := true
  fixed_rows : Nat := 1
  fixed_columns : Nat := 1
  virtual_size : Nat × Nat := (0, 0)
deriving DecidableEq, Repr

/-- Dict lookup (Python dict.get): first entry with the given key. -/
def dictGet : List (Int × Row) → Int → Option Row
  | [], _ => none
  | e :: es, k => if e.1 = k then some e.2 else dictGet es k

/-- Dict store (Python dict assignment): replace the entry with the given
key in place, or append a new entry. -/
def dictSet : List (Int × Row) → Int → Row → List (Int × Row)
  | [], k, v => [(k, v)]
  | e :: es, k, v => if e.1 = k then (k, v) :: es else e :: dictSet es k v

/-- The source's LRUCache capacity. -/
def cacheCapacity : Nat := 10000

/-- Cache lookup: first entry with the given key. Modelled from the spec:
the LRU recency bookkeeping is omitted since eviction order only decides
which entries are dropped at capacity, which the spec requires to be
invisible to correctness. -/
def cacheGet : List ((Int × Nat) × Line) → (Int × Nat) → Option Line
  | [], _ => none
  | e :: es, k => if e.1 = k then some e.2 else cacheGet es k

/-- Remove every entry with the given key. -/
def eraseKey : List ((Int × Nat) × Line) → (Int × Nat) → List ((Int × Nat) × Line)
  | [], _ => []
  | e :: es, k => if e.1 = k then eraseKey es k else e :: eraseKey es k

/-- Cache store: insert the entry at the most-recent end and drop least
recent entries beyond the capacity. -/
def cacheSet (c : List ((Int × Nat) × Line)) (k : Int × Nat) (v : Line) :
    List ((Int × Nat) × Line) :=
  ((k, v) :: eraseKey c k).take cacheCapacity

/-- DataTable._update_dimensions: virtual width is the sum of all column
widths (the visible flag is not consulted), virtual height is the number
of stored data rows plus one when the header is shown. -/
def updateDimensions (t : DataTable) : DataTable :=
  { t with virtual_size :=
      ((t.columns.map (fun c => c.width)).sum,
        t.data.length + (if t.show_header then 1 else 0)) }

/-- DataTable.add_column: append a column whose index is the current
column count, then recompute dimensions. The host's markup parsing of
the label is outside this core, so the label arrives as text. -/
def add_column (t : DataTable) (label : CellValue) (width : Nat := 10) : DataTable :=
  updateDimensions
    { t with columns := t.columns ++ [{ label := label, width := width, index := t.columns.length }] }

/-- DataTable.add_row: store the cell values at key row_count, increment
row_count, recompute dimensions. No shape check is performed. -/
def add_row (t : DataTable) (cells : Row) : DataTable :=
  updateDimensions
    { t with data := dictSet t.data (t.row_count : Int) cells
             row_count := t.row_count + 1 }

/-- DataTable.get_row: display row 0 is the header label row when the
header is shown; otherwise the stored data row at key
(y - 1 if show_header else 0), falling back to a row of empty cells,
one per column, when the key has no stored row. -/
def get_row (t : DataTable) (y : Int) : Row :=
  if y = 0 ∧ t.show_header then t.columns.map (fun c => c.label)
  else
    match dictGet t.data (if t.show_header then y - 1 else 0) with
    | none => t.columns.map (fun _ => ([] : CellValue))
    | some d => d

/-- DataTable._render_cell: return the cached line for (y, column.index),
or render the cell value get_row(y)[column.index] into the column width
and cache it. The Python subscript raises IndexError when the row is
shorter than column.index + 1; the Option models that failure. The
height-1 console render produces exactly one line, modelled directly as
that line. -/
def render_cell (t : DataTable) (y : Int) (col : Column) : Option (Line × DataTable) :=
  match cacheGet t.cellRenderCache (y, col.index) with
  | some lines => some (lines, t)
  | none =>
    match (get_row t y).get? col.index with
    | none => none
    | some cell =>
      let lines := renderCellInto cell col.width
      some (lines, { t with cellRenderCache := cacheSet t.cellRenderCache (y, col.index) lines })

/-- The column loop of DataTable._render_line: render every column's cell
for display row y in order, threading the cache state. -/
def render_cells (t : DataTable) (y : Int) : List Column → Option (List Line × DataTable)
  | [] => some ([], t)
  | col :: rest =>
    match render_cell t y col with
    | none => none
    | some (l, t1) =>
      match render_cells t1 y rest with
      | none => none
      | some (ls, t2) => some (l :: ls, t2)

/-- Concatenation of cell lines into one full-width line. -/
def joinAll : List Line → Line
  | [] => []
  | l :: ls => l ++ joinAll ls

/-- DataTable._render_line: render all cells of display row y; build the
header-styled fixed prefix from the first fixed_columns cells; crop the
full line to [x1 + fixed_width, x2); concatenate, pad or truncate to the
content width; and when y is the shown header row, apply the header
style over the whole line. The content width and the queried Header
style are host state, passed in. -/
def render_line (width : Nat) (headerStyle : Style) (t : DataTable) (y x1 x2 : Int) :
    Option (Line × DataTable) :=
  match render_cells t y t.columns with
  | none => none
  | some (cellSegments, t1) =>
    let fixed := applyStyle headerStyle (joinAll (cellSegments.take t.fixed_columns))
    let fixedWidth : Int := (((t.columns.take t.fixed_columns).map (fun c => c.width)).sum : Nat)
    let segments := fixed ++ lineCrop (joinAll cellSegments) (x1 + fixedWidth) x2
    let out := adjustLineLength segments width
    some ((if y = 0 ∧ t.show_header then applyStyle headerStyle out else out), t1)

/-- The row loops of DataTable.render_lines: render each display row in
the list with the same horizontal window, threading the cache state. -/
def render_rows (width : Nat) (headerStyle : Style) :
    DataTable → List Int → Int → Int → Option (List Line × DataTable)
  | t, [], _, _ => some ([], t)
  | t, y :: ys, x1, x2 =>
    match render_line width headerStyle t y x1 x2 with
    | none => none
    | some (l, t1) =>
      match render_rows width headerStyle t1 ys x1 x2 with
      | none => none
      | some (ls, t2) => some (l :: ls, t2)

/-- Python range(a, b) over integers. -/
def intRange (a b : Int) : List Int :=
  (List.range (b - a).toNat).map (fun i => a + i)

/-- Host-supplied ambient render state: the content region width, the
Header child's rich style, the base style derived from the widget
colors, and the current scroll offset. -/
structure RenderEnv where
  contentWidth : Nat
  headerStyle : Style
  baseStyle : Style
  scroll_x : Int
  scroll_y : Int
deriving DecidableEq, Repr

/-- DataTable.render_lines: translate both ranges by the scroll offset,
render the pinned rows [0, fixed_rows) and the requested window, stitch
them (the pinned copies supersede the first fixed_rows scrolled lines
when there are pinned lines), and apply the base style over every
resulting line. -/
def render_lines (env : RenderEnv) (t : DataTable) (lineRange columnRange : Int × Int) :
    Option (List Line × DataTable) :=
  let y1 := lineRange.1 + env.scroll_y
  let y2 := lineRange.2 + env.scroll_y
  let x1 := columnRange.1 + env.scroll_x
  let x2 := columnRange.2 + env.scroll_x
  match render_rows env.contentWidth env.headerStyle t ((List.range t.fixed_rows).map Int.ofNat) x1 x2 with
  | none => none
  | some (fixedLines, t1) =>
    match render_rows env.contentWidth env.headerStyle t1 (intRange y1 y2) x1 x2 with
    | none => none
    | some (scrolled, t2) =>
      let lines := if fixedLines.isEmpty then scrolled else fixedLines ++ scrolled.drop t.fixed_rows
      some (lines.map (applyStyle env.baseStyle), t2)

/-- A fresh DataTable as DataTable.__init__ builds it, with the reactive
settings as the host may have assigned them; the inherited virtual size
starts at zero before the first dimension recompute. -/
def initTable (sh : Bool := true) (fr : Nat := 1) (fc : Nat := 1) : DataTable :=
  { columns := [], data := [], row_count := 0, cellRenderCache := []
    show_header := sh, fixed_rows := fr, fixed_columns := fc, virtual_size := (0, 0) }

/-- Clearing the cell render cache. -/
def clearCache (t : DataTable) : DataTable :=
  { t with cellRenderCache := [] }

/-- The two tables agree on every model field (everything except the
cell render cache). -/
def ModelEq (t1 t2 : DataTable) : Prop :=
  t1.columns = t2.columns ∧ t1.data = t2.data ∧ t1.row_count = t2.row_count ∧
    t1.show_header = t2.show_header ∧ t1.fixed_rows = t2.fixed_rows ∧
    t1.fixed_columns = t2.fixed_columns ∧ t1.virtual_size = t2.virtual_size

/-- Columns sharing an index agree on their width (true of every table
built through add_column, whose indices are distinct positions). -/
abbrev WC (t : DataTable) : Prop :=
  ∀ c ∈ t.columns, ∀ c' ∈ t.columns, c.index = c'.index → c.width = c'.width

/-- Every cache entry has the width of the columns sharing its column
index. -/
abbrev SZ (t : DataTable) : Prop :=
  ∀ e ∈ t.cellRenderCache, ∀ col ∈ t.columns, col.index = e.1.2 → e.2.length = col.width

/-- Every cache entry equals the render of the current model's cell value
at its key, for every column sharing its column index: the cache is
consistent with the model (no stale entries). -/
abbrev CC (t : DataTable) : Prop :=
  ∀ e ∈ t.cellRenderCache, ∀ col ∈ t.columns, col.index = e.1.2 →
    ((get_row t e.1.1).get? col.index).map (fun c => renderCellInto c col.width) = some e.2

/-- Every stored row has one value per column, and every column's index
is within the column list. -/
abbrev rowsOK (t : DataTable) : Prop :=
  (∀ p ∈ t.data, p.2.length = t.columns.length) ∧
    (∀ c ∈ t.columns, c.index < t.columns.length)

/-- The pixel width of the fixed column band. -/
def fixedWidthN (t : DataTable) : Nat :=
  ((t.columns.take t.fixed_columns).map (fun c => c.width)).sum

/-- A cache entry freshly rendered from the table's current model. -/
def FreshEntry (t : DataTable) (e : (Int × Nat) × Line) : Prop :=
  ∃ col, col ∈ t.columns ∧ col.index = e.1.2 ∧
    ∃ cell, (get_row t e.1.1).get? col.index = some cell ∧ e.2 = renderCellInto cell col.width

/-- Every cache entry of the second table is an entry of the first or a
fresh render of the first's model: the cache only gains freshly rendered
entries (entries may also be dropped for capacity). -/
def cacheGrows (t t' : DataTable) : Prop :=
  ∀ e ∈ t'.cellRenderCache, e ∈ t.cellRenderCache ∨ FreshEntry t e

/-- Tables reachable by add_column and add_row calls where every added
row supplies exactly one value per column defined at that time and no
column is added after any row. -/
inductive Built : DataTable → Prop where
  | init : ∀ sh fr fc, Built (initTable sh fr fc)
  | addCol : ∀ t label w, Built t → t.data = [] → Built (add_column t label w)
  | addRow : ∀ t cells, Built t → cells.length = t.columns.length → Built (add_row t cells)

/-- The spec's width formula, as the spec words it: the sum of the
visible columns' widths only. Kept for comparison with the source's
_update_dimensions, which sums every column's width. -/
def specVisibleWidth (cols : List Column) : Nat :=
  ((cols.filter (fun c => c.visible)).map (fun c => c.width)).sum

/-- A sample header style (bold), as the Header query would supply. -/
def hsty : Style := { bold := some true }

/-- A sample base style (a foreground and background color pair), as the
widget colors would supply. -/
def bsty : Style := { color := some 1, bgcolor := some 2 }

/-- Concrete table for C1: two data rows, header hidden by the host. -/
def tC1 : DataTable :=
  { add_row (add_row (add_column (initTable true 1 1) (['A']) 10) [(['x'])]) [(['y'])] with
      show_header := false }

/-- Concrete table for C2: two columns, no rows. -/
def tC2 : DataTable := add_column (add_column (initTable true 1 1) (['A']) 3) (['B']) 3

/-- Concrete table for C3: one column of width 5, no rows yet. -/
def tC3a : DataTable := add_column (initTable true 1 1) (['A']) 5

/-- The single column of tC3a. -/
def colC3 : Column := { label := ['A'], width := 5, visible := false, index := 0 }

/-- tC3a after display row 1 (no stored data yet) was rendered once, so
the blank fallback render sits in the cache. -/
def tC3b : DataTable := (render_cell tC3a 1 colC3).elim tC3a (fun p => p.2)

/-- tC3b after add_row stores data at row key 0 (display row 1). -/
def tC3c : DataTable := add_row tC3b [(['X', 'Y'])]

/-- Concrete table for C4: one column of width 10 (visible is False, the
source's dataclass default, which add_column never changes). -/
def tC4 : DataTable := add_column (initTable true 1 1) (['A']) 10

/-- Concrete table for C5: two columns of width 3, one pinned. -/
def tC5 : DataTable := add_column (add_column (initTable true 1 1) (['A']) 3) (['B']) 3

/-- Render env for C5 at zero scroll. -/
def envC5a : RenderEnv := { contentWidth := 6, headerStyle := hsty, baseStyle := bsty, scroll_x := 0, scroll_y := 0 }

/-- Render env for C5 at horizontal scroll 1. -/
def envC5b : RenderEnv := { contentWidth := 6, headerStyle := hsty, baseStyle := bsty, scroll_x := 1, scroll_y := 0 }

/-- Concrete table for C8: one column, default fixed_rows = 1. -/
def tC8 : DataTable := add_column (initTable true 1 1) (['A']) 3

/-- Render env for C8. -/
def envC8 : RenderEnv := { contentWidth := 3, headerStyle := hsty, baseStyle := bsty, scroll_x := 0, scroll_y := 0 }

/-- Concrete table for C9's counterexample: header hidden, no pinned
rows, one column, one stored row. -/
def tC9c : DataTable := add_row (add_column (initTable false 0 1) (['A']) 3) [(['X'])]

/-- Render env for C9's counterexample. -/
def envC9c : RenderEnv := { contentWidth := 3, headerStyle := hsty, baseStyle := bsty, scroll_x := 0, scroll_y := 0 }

/-- Concrete table for the C4 witness. -/
def tC4w : DataTable := add_column (initTable true 1 1) (['A']) 4

/-- Concrete colum-free table for the C5 witness, vertical part. -/
def tC5wa : DataTable := initTable true 1 1

/-- Concrete table for the C5 witness, horizontal part: no pinned rows. -/
def tC5wb : DataTable := add_column (initTable true 0 1) (['A']) 3

/-- Concrete table for C6/C10 witnesses: one column of width 3. -/
def tC6 : DataTable := add_column (initTable true 1 1) (['A']) 3

/-- Render env for the C6/C10 witnesses. -/
def envC6 : RenderEnv := { contentWidth := 3, headerStyle := hsty, baseStyle := bsty, scroll_x := 0, scroll_y := 0 }

/-- Concrete table for the C7 witness: one column with a warm cache entry
holding exactly the render of the header cell. -/
def tC7 : DataTable :=
  { add_column (initTable true 1 1) (['A']) 3 with
      cellRenderCache := [(((0 : Int), (0 : Nat)), [(' ', none), ('A', none), (' ', none)])] }

/-- Concrete table for the C9 witness: one column, one matching row. -/
def tC9 : DataTable := add_row (add_column (initTable true 1 1) (['A']) 3) [(['x'])]

/-- The single column of tC9. -/
def colC9 : Column := { label := ['A'], width := 3, visible := false, index := 0 }

/-- The base style layered under the header style. -/
def styHB : Style := { color := some 1, bgcolor := some 2, bold := some true }

/-- The unstyled render of the label cell of the width-3 sample column. -/
def plainA : Line := [(' ', none), ('A', none), (' ', none)]

/-- The fully styled header line of the width-3 sample column. -/
def lineA : Line := [(' ', some styHB), ('A', some styHB), (' ', some styHB)]

/-- tC6 with the header cell's render cached, as one render leaves it. -/
def tC6' : DataTable := { tC6 with cellRenderCache := [(((0 : Int), (0 : Nat)), plainA)] }

/-- tC5wb with the header cell's render cached, as one render leaves it. -/
def tC5wb' : DataTable := { tC5wb with cellRenderCache := [(((0 : Int), (0 : Nat)), plainA)] }

/-- The cache-free value semantics of the _render_line column loop:
every cell rendered directly from the model. Reference definition used
to state and prove cache transparency. -/
def render_cells_pure (t : DataTable) (y : Int) : List Column → Option (List Line)
  | [] => some []
  | col :: rest =>
    match (get_row t y).get? col.index with
    | none => none
    | some cell =>
      match render_cells_pure t y rest with
      | none => none
      | some ls => some (renderCellInto cell col.width :: ls)

/-- The cache-free value semantics of _render_line. -/
def render_line_pure (width : Nat) (headerStyle : Style) (t : DataTable) (y x1 x2 : Int) :
    Option Line :=
  match render_cells_pure t y t.columns with
  | none => none
  | some cellSegments =>
    let fixed := applyStyle headerStyle (joinAll (cellSegments.take t.fixed_columns))
    let fixedWidth : Int := (((t.columns.take t.fixed_columns).map (fun c => c.width)).sum : Nat)
    let segments := fixed ++ lineCrop (joinAll cellSegments) (x1 + fixedWidth) x2
    let out := adjustLineLength segments width
    some (if y = 0 ∧ t.show_header then applyStyle headerStyle out else out)

/-- The cache-free value semantics of the render_lines row loops. -/
def render_rows_pure (width : Nat) (headerStyle : Style) (t : DataTable) :
    List Int → Int → Int → Option (List Line)
  | [], _, _ => some []
  | y :: ys, x1, x2 =>
    match render_line_pure width headerStyle t y x1 x2 with
    | none => none
    | some l =>
      match render_rows_pure width headerStyle t ys x1 x2 with
      | none => none
      | some ls => some (l :: ls)

/-- The cache-free value semantics of render_lines. -/
def render_lines_pure (env : RenderEnv) (t : DataTable) (lineRange columnRange : Int × Int) :
    Option (List Line) :=
  let y1 := lineRange.1 + env.scroll_y
  let y2 := lineRange.2 + env.scroll_y
  let x1 := columnRange.1 + env.scroll_x
  let x2 := columnRange.2 + env.scroll_x
  match render_rows_pure env.contentWidth env.headerStyle t ((List.range t.fixed_rows).map Int.ofNat) x1 x2 with
  | none => none
  | some fixedLines =>
    match render_rows_pure env.contentWidth env.headerStyle t (intRange y1 y2) x1 x2 with
    | none => none
    | some scrolled =>
      let lines := if fixedLines.isEmpty then scrolled else fixedLines ++ scrolled.drop t.fixed_rows
      some (lines.map (applyStyle env.baseStyle))

theorem dictGet_dictSet_self (d : List (Int × Row)) (k : Int) (v : Row) :
    dictGet (dictSet d k v) k = some v := by
  induction d with
  | nil => simp [dictSet, dictGet]
  | cons e es ih =>
    by_cases h : e.1 = k <;> simp [dictSet, dictGet, h, ih]

theorem dictSet_length_fresh {d : List (Int × Row)} {k : Int} (v : Row)
    (h : dictGet d k = none) : (dictSet d k v).length = d.length + 1 := by
  induction d with
  | nil => simp [dictSet]
  | cons e es ih =>
    by_cases he : e.1 = k
    · simp [dictGet, he] at h
    · simp [dictGet, he] at h
      simp [dictSet, he, ih h]

theorem dictSet_mem {d : List (Int × Row)} {k : Int} {v : Row} {p : Int × Row}
    (h : p ∈ dictSet d k v) : p ∈ d ∨ p = (k, v) := by
  induction d with
  | nil => simpa [dictSet] using h
  | cons e es ih =>
    by_cases he : e.1 = k
    · simp [dictSet, he] at h
      rcases h with h | h
      · exact Or.inr h
      · exact Or.inl (List.mem_cons_of_mem _ h)
    · simp [dictSet, he] at h
      rcases h with h | h
      · exact Or.inl (by simp [h])
      · rcases ih h with h' | h'
        · exact Or.inl (List.mem_cons_of_mem _ h')
        · exact Or.inr h'

theorem dictGet_mem {d : List (Int × Row)} {k : Int} {v : Row}
    (h : dictGet d k = some v) : (k, v) ∈ d := by
  induction d with
  | nil => simp [dictGet] at h
  | cons e es ih =>
    by_cases he : e.1 = k
    · simp [dictGet, he] at h
      subst he
      subst h
      exact List.mem_cons_self _ _
    · simp [dictGet, he] at h
      exact List.mem_cons_of_mem _ (ih h)

/-- C1: the code, at a concrete table with the header hidden and distinct
rows stored at keys 0 and 1, returns the key-0 row for display row 1:
the data offset is computed as (y - 1 if show_header else 0), so with
the header hidden every display row resolves to key 0 instead of key y,
contradicting the claim that get_row(y) then returns the row at key y. -/
theorem C1_code_eval :
    get_row tC1 1 = [['x']] ∧ dictGet tC1.data 1 = some [['y']] ∧
      (['x'] : CellValue) ≠ ['y'] := by decide

/-- C2 counterexample: add_row with one value on a two-column table does
not fail: the mismatched row is stored at key 0, row_count becomes 1 and
the virtual size changes, refuting fail-fast atomic rejection. -/
theorem C2_counterexample :
    [(['z'] : CellValue)].length ≠ tC2.columns.length ∧
      (add_row tC2 [(['z'])]).row_count = 1 ∧
      dictGet (add_row tC2 [(['z'])]).data 0 = some [['z']] ∧
      (add_row tC2 [(['z'])]).virtual_size = (6, 2) ∧
      tC2.virtual_size = (6, 1) := by decide

/-- C2 amended: add_row performs no shape validation at all; for every
table state and every tuple of cell values, matching the column count or
not, the values are stored at key row_count, row_count increments, and
the columns are untouched — the call never fails. -/
theorem C2_amended (t : DataTable) (cells : Row) :
    (add_row t cells).row_count = t.row_count + 1 ∧
      dictGet (add_row t cells).data (t.row_count : Int) = some cells ∧
      (add_row t cells).columns = t.columns :=
  ⟨rfl, dictGet_dictSet_self t.data (t.row_count : Int) cells, rfl⟩

/-- C3: no mutation evicts cache entries. Concretely, after display row 1
was rendered through the blank fallback (no stored row) and cached,
add_row stores data at row key 0 (display row 1 with the header shown);
re-rendering that cell returns the stale cached blank line, not the
render of the stored value, refuting the claimed eviction invariant. -/
theorem C3_code_eval :
    (render_cell tC3c 1 colC3).map (fun p => p.1) = some (renderCellInto [] 5) ∧
      dictGet tC3c.data 0 = some [['X', 'Y']] ∧
      renderCellInto [] 5 ≠ renderCellInto (['X', 'Y']) 5 := by decide

/-- C4 counterexample: a column created by add_column has visible = False
(the dataclass default, never changed), yet its width 10 is counted by
_update_dimensions, so the computed width is 10 while the spec's
visible-columns-only sum is 0. -/
theorem C4_counterexample :
    tC4.virtual_size.1 = 10 ∧ specVisibleWidth tC4.columns = 0 ∧ (10 : Nat) ≠ 0 := by decide

/-- C4 amended: after either mutation the computed virtual size has width
equal to the sum of ALL columns' widths (the visible flag is ignored)
and height equal to the number of stored rows plus one when the header
is shown; stated for states whose dict agrees with row_count, as every
table built through the API does. -/
theorem C4_amended (t : DataTable) (label : CellValue) (w : Nat) (cells : Row)
    (h1 : t.data.length = t.row_count) (h2 : dictGet t.data (t.row_count : Int) = none) :
    (add_column t label w).virtual_size =
      ((t.columns.map (fun c => c.width)).sum + w, t.row_count + (if t.show_header then 1 else 0)) ∧
    (add_row t cells).virtual_size =
      ((t.columns.map (fun c => c.width)).sum, (t.row_count + 1) + (if t.show_header then 1 else 0)) := by
  constructor
  · simp [add_column, updateDimensions, h1]
  · simp [add_row, updateDimensions, dictSet_length_fresh cells h2, h1, Nat.add_right_comm]

/-- Witness for C4: a one-column table whose dict agrees with row_count, with both mutations evaluated. -/
theorem C4_amended_witness :
    tC4w.data.length = tC4w.row_count ∧ dictGet tC4w.data (tC4w.row_count : Int) = none ∧
    ((add_column tC4w (['B']) 7).virtual_size =
        ((tC4w.columns.map (fun c => c.width)).sum + 7,
          tC4w.row_count + (if tC4w.show_header then 1 else 0)) ∧
      (add_row tC4w [(['z'])]).virtual_size =
        ((tC4w.columns.map (fun c => c.width)).sum,
          (tC4w.row_count + 1) + (if tC4w.show_header then 1 else 0))) :=
  ⟨by decide, by decide, C4_amended tC4w (['B']) 7 [(['z'])] (by decide) (by decide)⟩

/-- C8 counterexample: with the default fixed_rows = 1, a malformed
request with y1 > y2 still returns one output line (the pinned row),
not an empty result. -/
theorem C8_counterexample :
    (render_lines envC8 tC8 (5, 3) (0, 3)).map (fun r => r.1.length) = some 1 ∧
      (1 : Nat) ≠ 0 := by decide

/-- C8 amended: a malformed request never raises; with y1 ≥ y2 the
requested window contributes no rows, and the result is empty exactly
when there are no pinned rows (fixed_rows = 0) — otherwise the pinned
rows are still returned; the table state is untouched. An x1 ≥ x2 window
likewise raises nothing: it only crops to nothing, and each produced
line is still padded to the content width. -/
theorem C8_amended (env : RenderEnv) (t : DataTable) (lr cr : Int × Int)
    (hfr : t.fixed_rows = 0) (hy : lr.2 ≤ lr.1) :
    render_lines env t lr cr = some ([], t) := by
  have h0 : (lr.2 + env.scroll_y - (lr.1 + env.scroll_y)).toNat = 0 := by
    rw [Int.toNat_eq_zero]
    omega
  have h0' : (lr.2 - lr.1).toNat = 0 := by
    rw [Int.toNat_eq_zero]
    omega
  simp [render_lines, hfr, intRange, h0, h0', render_rows]

/-- Witness for C8: a table with no pinned rows and a reversed line range yields the empty result. -/
theorem C8_amended_witness :
    tC5wb.fixed_rows = 0 ∧ ((3 : Int) ≤ 5) ∧
      render_lines envC8 tC5wb (5, 3) (0, 3) = some ([], tC5wb) :=
  ⟨by decide, by decide, C8_amended envC8 tC5wb (5, 3) (0, 3) (by decide) (by decide)⟩

theorem adjustLineLength_length (l : Line) (w : Nat) : (adjustLineLength l w).length = w := by
  unfold adjustLineLength
  split
  · rw [List.length_take]
    omega
  · simp only [List.length_append, List.length_replicate]
    omega

theorem applyStyle_length (b : Style) (l : Line) : (applyStyle b l).length = l.length := by
  simp [applyStyle]

theorem applyStyle_take (b : Style) (l : Line) (n : Nat) :
    (applyStyle b l).take n = applyStyle b (l.take n) := by
  simp [applyStyle, List.map_take]

theorem cacheGet_mem {c : List ((Int × Nat) × Line)} {k : Int × Nat} {l : Line}
    (h : cacheGet c k = some l) : (k, l) ∈ c := by
  induction c with
  | nil => simp [cacheGet] at h
  | cons e es ih =>
    by_cases he : e.1 = k
    · simp [cacheGet, he] at h
      subst he
      subst h
      exact List.mem_cons_self _ _
    · simp [cacheGet, he] at h
      exact List.mem_cons_of_mem _ (ih h)

theorem eraseKey_subset {c : List ((Int × Nat) × Line)} {k : Int × Nat}
    {e : (Int × Nat) × Line} (h : e ∈ eraseKey c k) : e ∈ c := by
  induction c with
  | nil => simpa [eraseKey] using h
  | cons e' es ih =>
    by_cases he : e'.1 = k
    · simp only [eraseKey, if_pos he] at h
      exact List.mem_cons_of_mem _ (ih h)
    · simp only [eraseKey, if_neg he] at h
      rcases List.mem_cons.mp h with h' | h'
      · exact h' ▸ List.mem_cons_self _ _
      · exact List.mem_cons_of_mem _ (ih h')

theorem cacheSet_mem {c : List ((Int × Nat) × Line)} {k : Int × Nat} {v : Line}
    {e : (Int × Nat) × Line} (h : e ∈ cacheSet c k v) : e = (k, v) ∨ e ∈ c := by
  unfold cacheSet at h
  rcases List.mem_cons.mp (List.take_subset _ _ h) with h' | h'
  · exact Or.inl h'
  · exact Or.inr (eraseKey_subset h')

theorem modelEq_refl (t : DataTable) : ModelEq t t := ⟨rfl, rfl, rfl, rfl, rfl, rfl, rfl⟩

theorem modelEq_trans {t1 t2 t3 : DataTable} (h : ModelEq t1 t2) (h' : ModelEq t2 t3) :
    ModelEq t1 t3 := by
  obtain ⟨a, b, c, d, e, f, g⟩ := h
  obtain ⟨a', b', c', d', e', f', g'⟩ := h'
  exact ⟨a.trans a', b.trans b', c.trans c', d.trans d', e.trans e', f.trans f', g.trans g'⟩

theorem modelEq_symm {t1 t2 : DataTable} (h : ModelEq t1 t2) : ModelEq t2 t1 := by
  obtain ⟨a, b, c, d, e, f, g⟩ := h
  exact ⟨a.symm, b.symm, c.symm, d.symm, e.symm, f.symm, g.symm⟩

theorem get_row_congr {t1 t2 : DataTable} (h : ModelEq t1 t2) (y : Int) :
    get_row t1 y = get_row t2 y := by
  obtain ⟨hc, hd, -, hs, -, -, -⟩ := h
  simp only [get_row, hc, hd, hs]

theorem WC_congr {t1 t2 : DataTable} (h : ModelEq t1 t2) (hw : WC t1) : WC t2 := by
  intro c hc c' hc' hi
  rw [← h.1] at hc hc'
  exact hw c hc c' hc' hi

theorem rowsOK_congr {t1 t2 : DataTable} (h : ModelEq t1 t2) (hr : rowsOK t1) : rowsOK t2 := by
  refine ⟨fun p hp => ?_, fun c hc => ?_⟩
  · rw [← h.2.1] at hp
    rw [← h.1]
    exact hr.1 p hp
  · rw [← h.1] at hc ⊢
    exact hr.2 c hc

/-- Complete case analysis of _render_cell: a cache hit returns the entry
and the unchanged state; a miss renders get_row(y)[index] into the
column width and stores it, or fails when the subscript is out of range. -/
theorem render_cell_cases (t : DataTable) (y : Int) (col : Column) :
    (∃ l, cacheGet t.cellRenderCache (y, col.index) = some l ∧
        render_cell t y col = some (l, t)) ∨
      (cacheGet t.cellRenderCache (y, col.index) = none ∧
        (((get_row t y).get? col.index = none ∧ render_cell t y col = none) ∨
          (∃ cell, (get_row t y).get? col.index = some cell ∧
            render_cell t y col = some (renderCellInto cell col.width,
              { t with cellRenderCache :=
                  cacheSet t.cellRenderCache (y, col.index) (renderCellInto cell col.width) })))) := by
  rcases hc : cacheGet t.cellRenderCache (y, col.index) with _ | l
  · rcases hg : (get_row t y).get? col.index with _ | cell
    · refine Or.inr ⟨rfl, Or.inl ⟨rfl, ?_⟩⟩
      unfold render_cell
      rw [hc, hg]
    · refine Or.inr ⟨rfl, Or.inr ⟨cell, rfl, ?_⟩⟩
      unfold render_cell
      rw [hc, hg]
  · refine Or.inl ⟨l, rfl, ?_⟩
    unfold render_cell
    rw [hc]

theorem render_cell_model {t : DataTable} {y : Int} {col : Column} {l : Line} {t' : DataTable}
    (h : render_cell t y col = some (l, t')) : ModelEq t t' := by
  rcases render_cell_cases t y col with ⟨l', -, he⟩ | ⟨-, ⟨-, he⟩ | ⟨cell, -, he⟩⟩
  · rw [he] at h
    cases h
    exact modelEq_refl t
  · rw [he] at h
    cases h
  · rw [he] at h
    cases h
    exact ⟨rfl, rfl, rfl, rfl, rfl, rfl, rfl⟩

theorem get_row_cache (t : DataTable) (c : List ((Int × Nat) × Line)) (y : Int) :
    get_row { t with cellRenderCache := c } y = get_row t y := rfl

theorem renderCellInto_length (c : CellValue) (w : Nat) : (renderCellInto c w).length = w :=
  adjustLineLength_length _ _

theorem get_row_length {t : DataTable} (hok : rowsOK t) (y : Int) :
    (get_row t y).length = t.columns.length := by
  unfold get_row
  split
  · simp
  · rcases hd : dictGet t.data _ with _ | d
    · simp
    · exact hok.1 _ (dictGet_mem hd)

theorem render_cell_fst {t : DataTable} {y : Int} {col : Column}
    (hcc : CC t) (hmem : col ∈ t.columns) :
    (render_cell t y col).map (fun p => p.1) =
      ((get_row t y).get? col.index).map (fun c => renderCellInto c col.width) := by
  rcases render_cell_cases t y col with ⟨l, hc, he⟩ | ⟨hc, ⟨hg, he⟩ | ⟨cell, hg, he⟩⟩
  · rw [he]
    have hm := cacheGet_mem hc
    have hce := hcc _ hm col hmem rfl
    simpa using hce.symm
  · rw [he, hg]
    rfl
  · rw [he, hg]
    rfl

theorem render_cell_CC {t : DataTable} {y : Int} {col : Column} {l : Line} {t' : DataTable}
    (hw : WC t) (hcc : CC t) (hmem : col ∈ t.columns)
    (h : render_cell t y col = some (l, t')) : CC t' := by
  rcases render_cell_cases t y col with ⟨l', hc, he⟩ | ⟨hc, ⟨hg, he⟩ | ⟨cell, hg, he⟩⟩
  · rw [he] at h
    simp only [Option.some.injEq, Prod.mk.injEq] at h
    obtain ⟨rfl, rfl⟩ := h
    exact hcc
  · rw [he] at h
    cases h
  · rw [he] at h
    simp only [Option.some.injEq, Prod.mk.injEq] at h
    obtain ⟨rfl, rfl⟩ := h
    intro e hme col' hmc' hidx
    rcases cacheSet_mem hme with rfl | hold
    · have hwidth : col'.width = col.width := hw col' hmc' col hmem hidx
      simp only [get_row_cache, hidx, hg, hwidth, Option.map_some']
    · have hce := hcc e hold col' hmc' hidx
      simpa only [get_row_cache] using hce

theorem render_cell_SZ {t : DataTable} {y : Int} {col : Column} {l : Line} {t' : DataTable}
    (hw : WC t) (hsz : SZ t) (hmem : col ∈ t.columns)
    (h : render_cell t y col = some (l, t')) : SZ t' := by
  rcases render_cell_cases t y col with ⟨l', hc, he⟩ | ⟨hc, ⟨hg, he⟩ | ⟨cell, hg, he⟩⟩
  · rw [he] at h
    simp only [Option.some.injEq, Prod.mk.injEq] at h
    obtain ⟨rfl, rfl⟩ := h
    exact hsz
  · rw [he] at h
    cases h
  · rw [he] at h
    simp only [Option.some.injEq, Prod.mk.injEq] at h
    obtain ⟨rfl, rfl⟩ := h
    intro e hme col' hmc' hidx
    rcases cacheSet_mem hme with rfl | hold
    · have hwidth : col'.width = col.width := hw col' hmc' col hmem hidx
      simp only [renderCellInto_length, hwidth]
    · exact hsz e hold col' hmc' hidx

theorem render_cell_length {t : DataTable} {y : Int} {col : Column} {l : Line} {t' : DataTable}
    (hsz : SZ t) (hmem : col ∈ t.columns)
    (h : render_cell t y col = some (l, t')) : l.length = col.width := by
  rcases render_cell_cases t y col with ⟨l', hc, he⟩ | ⟨hc, ⟨hg, he⟩ | ⟨cell, hg, he⟩⟩
  · rw [he] at h
    simp only [Option.some.injEq, Prod.mk.injEq] at h
    obtain ⟨rfl, rfl⟩ := h
    exact hsz _ (cacheGet_mem hc) col hmem rfl
  · rw [he] at h
    cases h
  · rw [he] at h
    simp only [Option.some.injEq, Prod.mk.injEq] at h
    obtain ⟨rfl, rfl⟩ := h
    exact renderCellInto_length _ _

theorem render_cell_isSome {t : DataTable} {y : Int} {col : Column}
    (hok : rowsOK t) (hmem : col ∈ t.columns) : (render_cell t y col).isSome := by
  rcases render_cell_cases t y col with ⟨l, hc, he⟩ | ⟨hc, ⟨hg, he⟩ | ⟨cell, hg, he⟩⟩
  · rw [he]
    rfl
  · exfalso
    rw [List.get?_eq_none] at hg
    have h1 := get_row_length hok y
    have h2 := hok.2 col hmem
    omega
  · rw [he]
    rfl

theorem render_cells_pure_congr {t1 t2 : DataTable} (h : ModelEq t1 t2) (y : Int) :
    ∀ cols, render_cells_pure t1 y cols = render_cells_pure t2 y cols := by
  intro cols
  induction cols with
  | nil => rfl
  | cons col rest ih => simp only [render_cells_pure, get_row_congr h y, ih]

theorem render_cells_model (y : Int) :
    ∀ (cols : List Column) (t : DataTable) (r : List Line) (t' : DataTable),
      render_cells t y cols = some (r, t') → ModelEq t t' := by
  intro cols
  induction cols with
  | nil =>
    intro t r t' h
    simp only [render_cells, Option.some.injEq, Prod.mk.injEq] at h
    obtain ⟨-, rfl⟩ := h
    exact modelEq_refl t
  | cons col rest ih =>
    intro t r t' h
    simp only [render_cells] at h
    split at h
    · exact absurd h (by simp)
    · rename_i l t1 hcell
      split at h
      · exact absurd h (by simp)
      · rename_i ls t2 hrest
        simp only [Option.some.injEq, Prod.mk.injEq] at h
        obtain ⟨-, rfl⟩ := h
        exact modelEq_trans (render_cell_model hcell) (ih t1 ls _ hrest)

theorem render_cells_CC (y : Int) :
    ∀ (cols : List Column) (t : DataTable) (r : List Line) (t' : DataTable),
      WC t → CC t → (∀ c ∈ cols, c ∈ t.columns) →
      render_cells t y cols = some (r, t') → CC t' := by
  intro cols
  induction cols with
  | nil =>
    intro t r t' _ hcc _ h
    simp only [render_cells, Option.some.injEq, Prod.mk.injEq] at h
    obtain ⟨-, rfl⟩ := h
    exact hcc
  | cons col rest ih =>
    intro t r t' hw hcc hsub h
    simp only [render_cells] at h
    split at h
    · exact absurd h (by simp)
    · rename_i l t1 hcell
      split at h
      · exact absurd h (by simp)
      · rename_i ls t2 hrest
        simp only [Option.some.injEq, Prod.mk.injEq] at h
        obtain ⟨-, rfl⟩ := h
        have hmem : col ∈ t.columns := hsub col (List.mem_cons_self _ _)
        have hme := render_cell_model hcell
        refine ih t1 ls _ (WC_congr hme hw) (render_cell_CC hw hcc hmem hcell) ?_ hrest
        intro c hc
        rw [← hme.1]
        exact hsub c (List.mem_cons_of_mem _ hc)

theorem render_cells_SZ (y : Int) :
    ∀ (cols : List Column) (t : DataTable) (r : List Line) (t' : DataTable),
      WC t → SZ t → (∀ c ∈ cols, c ∈ t.columns) →
      render_cells t y cols = some (r, t') → SZ t' := by
  intro cols
  induction cols with
  | nil =>
    intro t r t' _ hsz _ h
    simp only [render_cells, Option.some.injEq, Prod.mk.injEq] at h
    obtain ⟨-, rfl⟩ := h
    exact hsz
  | cons col rest ih =>
    intro t r t' hw hsz hsub h
    simp only [render_cells] at h
    split at h
    · exact absurd h (by simp)
    · rename_i l t1 hcell
      split at h
      · exact absurd h (by simp)
      · rename_i ls t2 hrest
        simp only [Option.some.injEq, Prod.mk.injEq] at h
        obtain ⟨-, rfl⟩ := h
        have hmem : col ∈ t.columns := hsub col (List.mem_cons_self _ _)
        have hme := render_cell_model hcell
        refine ih t1 ls _ (WC_congr hme hw) (render_cell_SZ hw hsz hmem hcell) ?_ hrest
        intro c hc
        rw [← hme.1]
        exact hsub c (List.mem_cons_of_mem _ hc)

theorem render_cells_fst_eq (y : Int) :
    ∀ (cols : List Column) (t : DataTable), WC t → CC t → (∀ c ∈ cols, c ∈ t.columns) →
      (render_cells t y cols).map (fun p => p.1) = render_cells_pure t y cols := by
  intro cols
  induction cols with
  | nil => intro t _ _ _; rfl
  | cons col rest ih =>
    intro t hw hcc hsub
    have hmem : col ∈ t.columns := hsub col (List.mem_cons_self _ _)
    have hfst := render_cell_fst (y := y) hcc hmem
    cases h : render_cell t y col with
    | none =>
      rw [h] at hfst
      have hg : (get_row t y).get? col.index = none := by
        cases hgg : (get_row t y).get? col.index with
        | none => rfl
        | some cell => rw [hgg] at hfst; simp at hfst
      simp only [render_cells, render_cells_pure, h, hg]
      rfl
    | some p =>
      obtain ⟨l, t1⟩ := p
      rw [h] at hfst
      cases hgg : (get_row t y).get? col.index with
      | none => rw [hgg] at hfst; simp at hfst
      | some cell =>
        rw [hgg] at hfst
        simp only [Option.map_some', Option.some.injEq] at hfst
        have hme := render_cell_model h
        have ih1 := ih t1 (WC_congr hme hw) (render_cell_CC hw hcc hmem h)
          (fun c hc => by rw [← hme.1]; exact hsub c (List.mem_cons_of_mem _ hc))
        have hpc : render_cells_pure t1 y rest = render_cells_pure t y rest :=
          render_cells_pure_congr (modelEq_symm hme) y rest
        simp only [render_cells, render_cells_pure, h, hgg, ← hfst, ← hpc, ← ih1]
        cases hrest : render_cells t1 y rest with
        | none => rfl
        | some q => rfl

theorem render_cells_isSome (y : Int) :
    ∀ (cols : List Column) (t : DataTable), rowsOK t → (∀ c ∈ cols, c ∈ t.columns) →
      (render_cells t y cols).isSome := by
  intro cols
  induction cols with
  | nil => intro t _ _; rfl
  | cons col rest ih =>
    intro t hok hsub
    have hmem : col ∈ t.columns := hsub col (List.mem_cons_self _ _)
    obtain ⟨p, hp⟩ := Option.isSome_iff_exists.mp (render_cell_isSome (y := y) hok hmem)
    obtain ⟨l, t1⟩ := p
    have hme := render_cell_model hp
    have hok1 := rowsOK_congr hme hok
    have hsub1 : ∀ c ∈ rest, c ∈ t1.columns := by
      intro c hc
      rw [← hme.1]
      exact hsub c (List.mem_cons_of_mem _ hc)
    obtain ⟨q, hq⟩ := Option.isSome_iff_exists.mp (ih t1 hok1 hsub1)
    obtain ⟨ls, t2⟩ := q
    simp only [render_cells, hp, hq]
    rfl

theorem render_line_model {w : Nat} {hs : Style} {t : DataTable} {y x1 x2 : Int}
    {l : Line} {t' : DataTable} (h : render_line w hs t y x1 x2 = some (l, t')) :
    ModelEq t t' := by
  simp only [render_line] at h
  split at h
  · exact absurd h (by simp)
  · rename_i cs t1 hcells
    simp only [Option.some.injEq, Prod.mk.injEq] at h
    obtain ⟨-, rfl⟩ := h
    exact render_cells_model y t.columns t cs _ hcells

theorem render_line_CC {w : Nat} {hs : Style} {t : DataTable} {y x1 x2 : Int}
    {l : Line} {t' : DataTable} (hw : WC t) (hcc : CC t)
    (h : render_line w hs t y x1 x2 = some (l, t')) : CC t' := by
  simp only [render_line] at h
  split at h
  · exact absurd h (by simp)
  · rename_i cs t1 hcells
    simp only [Option.some.injEq, Prod.mk.injEq] at h
    obtain ⟨-, rfl⟩ := h
    exact render_cells_CC y t.columns t cs _ hw hcc (fun c hc => hc) hcells

theorem render_line_SZ {w : Nat} {hs : Style} {t : DataTable} {y x1 x2 : Int}
    {l : Line} {t' : DataTable} (hw : WC t) (hsz : SZ t)
    (h : render_line w hs t y x1 x2 = some (l, t')) : SZ t' := by
  simp only [render_line] at h
  split at h
  · exact absurd h (by simp)
  · rename_i cs t1 hcells
    simp only [Option.some.injEq, Prod.mk.injEq] at h
    obtain ⟨-, rfl⟩ := h
    exact render_cells_SZ y t.columns t cs _ hw hsz (fun c hc => hc) hcells

theorem render_line_length {w : Nat} {hs : Style} {t : DataTable} {y x1 x2 : Int}
    {l : Line} {t' : DataTable} (h : render_line w hs t y x1 x2 = some (l, t')) :
    l.length = w := by
  simp only [render_line] at h
  split at h
  · exact absurd h (by simp)
  · rename_i cs t1 hcells
    simp only [Option.some.injEq, Prod.mk.injEq] at h
    obtain ⟨hl, -⟩ := h
    rw [← hl]
    split
    · rw [applyStyle_length, adjustLineLength_length]
    · rw [adjustLineLength_length]

theorem render_line_fst_eq {w : Nat} {hs : Style} (t : DataTable) (y x1 x2 : Int)
    (hw : WC t) (hcc : CC t) :
    (render_line w hs t y x1 x2).map (fun p => p.1) = render_line_pure w hs t y x1 x2 := by
  have h := render_cells_fst_eq y t.columns t hw hcc (fun c hc => hc)
  cases hr : render_cells t y t.columns with
  | none =>
    rw [hr] at h
    simp only [render_line, render_line_pure, hr, ← h]
    rfl
  | some p =>
    obtain ⟨cs, t1⟩ := p
    rw [hr] at h
    simp only [render_line, render_line_pure, hr, ← h]
    rfl

theorem render_line_pure_congr {t1 t2 : DataTable} (h : ModelEq t1 t2)
    (w : Nat) (hs : Style) (y x1 x2 : Int) :
    render_line_pure w hs t1 y x1 x2 = render_line_pure w hs t2 y x1 x2 := by
  simp only [render_line_pure, render_cells_pure_congr h y, h.1, h.2.2.2.1, h.2.2.2.2.2.1]

theorem render_line_isSome {w : Nat} {hs : Style} {t : DataTable} (y x1 x2 : Int)
    (hok : rowsOK t) : (render_line w hs t y x1 x2).isSome := by
  obtain ⟨p, hp⟩ := Option.isSome_iff_exists.mp
    (render_cells_isSome y t.columns t hok (fun c hc => hc))
  obtain ⟨cs, t1⟩ := p
  simp only [render_line, hp]
  rfl

theorem render_rows_model {w : Nat} {hs : Style} {x1 x2 : Int} :
    ∀ (ys : List Int) (t : DataTable) (r : List Line) (t' : DataTable),
      render_rows w hs t ys x1 x2 = some (r, t') → ModelEq t t' := by
  intro ys
  induction ys with
  | nil =>
    intro t r t' h
    simp only [render_rows, Option.some.injEq, Prod.mk.injEq] at h
    obtain ⟨-, rfl⟩ := h
    exact modelEq_refl t
  | cons y ys ih =>
    intro t r t' h
    simp only [render_rows] at h
    split at h
    · exact absurd h (by simp)
    · rename_i l t1 hline
      split at h
      · exact absurd h (by simp)
      · rename_i ls t2 hrest
        simp only [Option.some.injEq, Prod.mk.injEq] at h
        obtain ⟨-, rfl⟩ := h
        exact modelEq_trans (render_line_model hline) (ih t1 ls _ hrest)

theorem render_rows_CC {w : Nat} {hs : Style} {x1 x2 : Int} :
    ∀ (ys : List Int) (t : DataTable) (r : List Line) (t' : DataTable),
      WC t → CC t → render_rows w hs t ys x1 x2 = some (r, t') → CC t' := by
  intro ys
  induction ys with
  | nil =>
    intro t r t' _ hcc h
    simp only [render_rows, Option.some.injEq, Prod.mk.injEq] at h
    obtain ⟨-, rfl⟩ := h
    exact hcc
  | cons y ys ih =>
    intro t r t' hw hcc h
    simp only [render_rows] at h
    split at h
    · exact absurd h (by simp)
    · rename_i l t1 hline
      split at h
      · exact absurd h (by simp)
      · rename_i ls t2 hrest
        simp only [Option.some.injEq, Prod.mk.injEq] at h
        obtain ⟨-, rfl⟩ := h
        exact ih t1 ls _ (WC_congr (render_line_model hline) hw)
          (render_line_CC hw hcc hline) hrest

theorem render_rows_SZ {w : Nat} {hs : Style} {x1 x2 : Int} :
    ∀ (ys : List Int) (t : DataTable) (r : List Line) (t' : DataTable),
      WC t → SZ t → render_rows w hs t ys x1 x2 = some (r, t') → SZ t' := by
  intro ys
  induction ys with
  | nil =>
    intro t r t' _ hsz h
    simp only [render_rows, Option.some.injEq, Prod.mk.injEq] at h
    obtain ⟨-, rfl⟩ := h
    exact hsz
  | cons y ys ih =>
    intro t r t' hw hsz h
    simp only [render_rows] at h
    split at h
    · exact absurd h (by simp)
    · rename_i l t1 hline
      split at h
      · exact absurd h (by simp)
      · rename_i ls t2 hrest
        simp only [Option.some.injEq, Prod.mk.injEq] at h
        obtain ⟨-, rfl⟩ := h
        exact ih t1 ls _ (WC_congr (render_line_model hline) hw)
          (render_line_SZ hw hsz hline) hrest

theorem render_rows_length {w : Nat} {hs : Style} {x1 x2 : Int} :
    ∀ (ys : List Int) (t : DataTable) (r : List Line) (t' : DataTable),
      render_rows w hs t ys x1 x2 = some (r, t') → r.length = ys.length := by
  intro ys
  induction ys with
  | nil =>
    intro t r t' h
    simp only [render_rows, Option.some.injEq, Prod.mk.injEq] at h
    obtain ⟨hr, -⟩ := h
    rw [← hr]
    rfl
  | cons y ys ih =>
    intro t r t' h
    simp only [render_rows] at h
    split at h
    · exact absurd h (by simp)
    · rename_i l t1 hline
      split at h
      · exact absurd h (by simp)
      · rename_i ls t2 hrest
        simp only [Option.some.injEq, Prod.mk.injEq] at h
        obtain ⟨hr, -⟩ := h
        rw [← hr]
        simp only [List.length_cons, ih t1 ls _ hrest]

theorem render_rows_all_length {w : Nat} {hs : Style} {x1 x2 : Int} :
    ∀ (ys : List Int) (t : DataTable) (r : List Line) (t' : DataTable),
      render_rows w hs t ys x1 x2 = some (r, t') → ∀ l ∈ r, l.length = w := by
  intro ys
  induction ys with
  | nil =>
    intro t r t' h
    simp only [render_rows, Option.some.injEq, Prod.mk.injEq] at h
    obtain ⟨hr, -⟩ := h
    rw [← hr]
    intro l hl
    simp at hl
  | cons y ys ih =>
    intro t r t' h
    simp only [render_rows] at h
    split at h
    · exact absurd h (by simp)
    · rename_i l t1 hline
      split at h
      · exact absurd h (by simp)
      · rename_i ls t2 hrest
        simp only [Option.some.injEq, Prod.mk.injEq] at h
        obtain ⟨hr, -⟩ := h
        rw [← hr]
        intro l' hl'
        rcases List.mem_cons.mp hl' with rfl | hl'
        · exact render_line_length hline
        · exact ih t1 ls _ hrest l' hl'

theorem render_rows_pure_congr {t1 t2 : DataTable} (h : ModelEq t1 t2)
    (w : Nat) (hs : Style) (x1 x2 : Int) :
    ∀ ys, render_rows_pure w hs t1 ys x1 x2 = render_rows_pure w hs t2 ys x1 x2 := by
  intro ys
  induction ys with
  | nil => rfl
  | cons y ys ih =>
    simp only [render_rows_pure, render_line_pure_congr h w hs y x1 x2, ih]

theorem render_rows_fst_eq {w : Nat} {hs : Style} {x1 x2 : Int} :
    ∀ (ys : List Int) (t : DataTable), WC t → CC t →
      (render_rows w hs t ys x1 x2).map (fun p => p.1) = render_rows_pure w hs t ys x1 x2 := by
  intro ys
  induction ys with
  | nil => intro t _ _; rfl
  | cons y ys ih =>
    intro t hw hcc
    have hfst := @render_line_fst_eq w hs t y x1 x2 hw hcc
    cases h : render_line w hs t y x1 x2 with
    | none =>
      rw [h] at hfst
      simp only [render_rows, render_rows_pure, h, ← hfst]
      rfl
    | some p =>
      obtain ⟨l, t1⟩ := p
      rw [h] at hfst
      have hme := render_line_model h
      have ih1 := ih t1 (WC_congr hme hw) (render_line_CC hw hcc h)
      have hpc : render_rows_pure w hs t1 ys x1 x2 = render_rows_pure w hs t ys x1 x2 :=
        render_rows_pure_congr (modelEq_symm hme) w hs x1 x2 ys
      simp only [render_rows, render_rows_pure, h, ← hfst, ← hpc, ← ih1]
      cases hrest : render_rows w hs t1 ys x1 x2 with
      | none => rfl
      | some q => rfl

theorem render_rows_isSome {w : Nat} {hs : Style} {x1 x2 : Int} :
    ∀ (ys : List Int) (t : DataTable), rowsOK t → (render_rows w hs t ys x1 x2).isSome := by
  intro ys
  induction ys with
  | nil => intro t _; rfl
  | cons y ys ih =>
    intro t hok
    obtain ⟨p, hp⟩ := Option.isSome_iff_exists.mp (@render_line_isSome w hs t y x1 x2 hok)
    obtain ⟨l, t1⟩ := p
    obtain ⟨q, hq⟩ := Option.isSome_iff_exists.mp (ih t1 (rowsOK_congr (render_line_model hp) hok))
    obtain ⟨ls, t2⟩ := q
    simp only [render_rows, hp, hq]
    rfl

theorem take_adjust_append (f a : Line) (w n : Nat) (hn : n ≤ f.length) :
    (adjustLineLength (f ++ a) w).take n = f.take (min n w) := by
  unfold adjustLineLength
  split
  · rename_i hle
    rw [List.take_take, List.take_append_of_le_length (le_trans (min_le_left n w) hn)]
  · rename_i hgt
    have hfa : (f ++ a).length = f.length + a.length := List.length_append f a
    rw [List.append_assoc, List.take_append_of_le_length hn,
      Nat.min_eq_left (by omega)]

theorem fixedWidthN_congr {t1 t2 : DataTable} (h : ModelEq t1 t2) :
    fixedWidthN t1 = fixedWidthN t2 := by
  unfold fixedWidthN
  rw [h.1, h.2.2.2.2.2.1]

theorem render_cells_take_join (y : Int) :
    ∀ (cols : List Column) (t : DataTable) (r : List Line) (t' : DataTable),
      WC t → SZ t → (∀ c ∈ cols, c ∈ t.columns) →
      render_cells t y cols = some (r, t') →
      ∀ k, (joinAll (r.take k)).length = ((cols.take k).map (fun c => c.width)).sum := by
  intro cols
  induction cols with
  | nil =>
    intro t r t' _ _ _ h k
    simp only [render_cells, Option.some.injEq, Prod.mk.injEq] at h
    obtain ⟨hr, -⟩ := h
    rw [← hr]
    simp [joinAll]
  | cons col rest ih =>
    intro t r t' hw hsz hsub h k
    simp only [render_cells] at h
    split at h
    · exact absurd h (by simp)
    · rename_i l t1 hcell
      split at h
      · exact absurd h (by simp)
      · rename_i ls t2 hrest
        simp only [Option.some.injEq, Prod.mk.injEq] at h
        obtain ⟨hr, -⟩ := h
        rw [← hr]
        cases k with
        | zero => simp [joinAll]
        | succ k =>
          have hmem : col ∈ t.columns := hsub col (List.mem_cons_self _ _)
          have hme := render_cell_model hcell
          simp only [List.take_succ_cons, joinAll, List.length_append, List.map_cons,
            List.sum_cons]
          rw [render_cell_length hsz hmem hcell,
            ih t1 ls t2 (WC_congr hme hw) (render_cell_SZ hw hsz hmem hcell)
              (fun c hc => by rw [← hme.1]; exact hsub c (List.mem_cons_of_mem _ hc)) hrest k]

theorem render_line_x {w : Nat} {hsy : Style} {t : DataTable} {y x1 x2 x1' x2' : Int}
    {l l' : Line} {t1 t1' : DataTable} (hw : WC t) (hsz : SZ t)
    (h : render_line w hsy t y x1 x2 = some (l, t1))
    (h' : render_line w hsy t y x1' x2' = some (l', t1')) :
    l.take (fixedWidthN t) = l'.take (fixedWidthN t) ∧ t1' = t1 := by
  simp only [render_line] at h h'
  cases hr : render_cells t y t.columns with
  | none =>
    rw [hr] at h
    exact absurd h (by simp)
  | some p =>
    obtain ⟨cs, tc⟩ := p
    rw [hr] at h h'
    simp only [Option.some.injEq, Prod.mk.injEq] at h h'
    obtain ⟨hl, rfl⟩ := h
    obtain ⟨hl', rfl⟩ := h'
    refine ⟨?_, rfl⟩
    rw [← hl, ← hl']
    have hfix : (applyStyle hsy (joinAll (cs.take t.fixed_columns))).length = fixedWidthN t := by
      rw [applyStyle_length]
      exact render_cells_take_join y t.columns t cs tc hw hsz (fun c hc => hc) hr t.fixed_columns
    have hgoal : ∀ a b : Line,
        (adjustLineLength (applyStyle hsy (joinAll (cs.take t.fixed_columns)) ++ a) w).take (fixedWidthN t) =
          (adjustLineLength (applyStyle hsy (joinAll (cs.take t.fixed_columns)) ++ b) w).take (fixedWidthN t) := by
      intro a b
      rw [take_adjust_append _ _ _ _ (le_of_eq hfix.symm),
        take_adjust_append _ _ _ _ (le_of_eq hfix.symm)]
    split_ifs
    · rw [applyStyle_take, applyStyle_take, hgoal _ _]
    · exact hgoal _ _

theorem render_rows_x {w : Nat} {hsy : Style} {x1 x2 x1' x2' : Int} :
    ∀ (ys : List Int) (t : DataTable) (r r' : List Line) (t1 t1' : DataTable),
      WC t → SZ t →
      render_rows w hsy t ys x1 x2 = some (r, t1) →
      render_rows w hsy t ys x1' x2' = some (r', t1') →
      r.map (fun l => l.take (fixedWidthN t)) = r'.map (fun l => l.take (fixedWidthN t)) ∧
        t1' = t1 := by
  intro ys
  induction ys with
  | nil =>
    intro t r r' t1 t1' _ _ h h'
    simp only [render_rows, Option.some.injEq, Prod.mk.injEq] at h h'
    obtain ⟨hr, rfl⟩ := h
    obtain ⟨hr', rfl⟩ := h'
    rw [← hr, ← hr']
    exact ⟨rfl, rfl⟩
  | cons y ys ih =>
    intro t r r' t1 t1' hw hsz h h'
    simp only [render_rows] at h h'
    split at h
    · exact absurd h (by simp)
    · rename_i l ta hline
      split at h
      · exact absurd h (by simp)
      · rename_i ls tb hrest
        simp only [Option.some.injEq, Prod.mk.injEq] at h
        obtain ⟨hr, rfl⟩ := h
        split at h'
        · exact absurd h' (by simp)
        · rename_i l' ta' hline'
          split at h'
          · exact absurd h' (by simp)
          · rename_i ls' tb' hrest'
            simp only [Option.some.injEq, Prod.mk.injEq] at h'
            obtain ⟨hr', rfl⟩ := h'
            obtain ⟨hltake, heq⟩ := render_line_x hw hsz hline hline'
            have hme := render_line_model hline
            have hFW : fixedWidthN ta = fixedWidthN t := fixedWidthN_congr (modelEq_symm hme)
            rw [heq] at hrest'
            obtain ⟨hmap, heq2⟩ := ih ta ls ls' tb tb'
              (WC_congr hme hw) (render_line_SZ hw hsz hline) hrest hrest'
            rw [hFW] at hmap
            rw [← hr, ← hr']
            exact ⟨by simp only [List.map_cons, hltake, hmap], heq2⟩

theorem render_lines_fst_eq (env : RenderEnv) (t : DataTable) (lr cr : Int × Int)
    (hw : WC t) (hcc : CC t) :
    (render_lines env t lr cr).map (fun p => p.1) = render_lines_pure env t lr cr := by
  have h1 := @render_rows_fst_eq env.contentWidth env.headerStyle
    (cr.1 + env.scroll_x) (cr.2 + env.scroll_x)
    ((List.range t.fixed_rows).map Int.ofNat) t hw hcc
  cases hf : render_rows env.contentWidth env.headerStyle t
      ((List.range t.fixed_rows).map Int.ofNat) (cr.1 + env.scroll_x) (cr.2 + env.scroll_x) with
  | none =>
    rw [hf] at h1
    simp only [render_lines, render_lines_pure, hf, ← h1]
    rfl
  | some p =>
    obtain ⟨fl, t1⟩ := p
    rw [hf] at h1
    have hme := render_rows_model _ t fl t1 hf
    have h2 := @render_rows_fst_eq env.contentWidth env.headerStyle
      (cr.1 + env.scroll_x) (cr.2 + env.scroll_x)
      (intRange (lr.1 + env.scroll_y) (lr.2 + env.scroll_y)) t1
      (WC_congr hme hw) (render_rows_CC _ t fl t1 hw hcc hf)
    have hpc : render_rows_pure env.contentWidth env.headerStyle t1
        (intRange (lr.1 + env.scroll_y) (lr.2 + env.scroll_y))
        (cr.1 + env.scroll_x) (cr.2 + env.scroll_x) =
      render_rows_pure env.contentWidth env.headerStyle t
        (intRange (lr.1 + env.scroll_y) (lr.2 + env.scroll_y))
        (cr.1 + env.scroll_x) (cr.2 + env.scroll_x) :=
      render_rows_pure_congr (modelEq_symm hme) _ _ _ _ _
    cases hs2 : render_rows env.contentWidth env.headerStyle t1
        (intRange (lr.1 + env.scroll_y) (lr.2 + env.scroll_y))
        (cr.1 + env.scroll_x) (cr.2 + env.scroll_x) with
    | none =>
      rw [hs2] at h2
      simp only [render_lines, render_lines_pure, hf, hs2, ← h1, ← hpc, ← h2]
      rfl
    | some q =>
      obtain ⟨sc, t2⟩ := q
      rw [hs2] at h2
      simp only [render_lines, render_lines_pure, hf, hs2, ← h1, ← hpc, ← h2]
      rfl

theorem render_lines_pure_congr {t1 t2 : DataTable} (h : ModelEq t1 t2)
    (env : RenderEnv) (lr cr : Int × Int) :
    render_lines_pure env t1 lr cr = render_lines_pure env t2 lr cr := by
  simp only [render_lines_pure, render_rows_pure_congr h, h.2.2.2.2.1]

theorem render_lines_isSome (env : RenderEnv) (t : DataTable) (lr cr : Int × Int)
    (hok : rowsOK t) : (render_lines env t lr cr).isSome := by
  obtain ⟨p, hp⟩ := Option.isSome_iff_exists.mp
    (@render_rows_isSome env.contentWidth env.headerStyle
      (cr.1 + env.scroll_x) (cr.2 + env.scroll_x)
      ((List.range t.fixed_rows).map Int.ofNat) t hok)
  obtain ⟨fl, t1⟩ := p
  obtain ⟨q, hq⟩ := Option.isSome_iff_exists.mp
    (@render_rows_isSome env.contentWidth env.headerStyle
      (cr.1 + env.scroll_x) (cr.2 + env.scroll_x)
      (intRange (lr.1 + env.scroll_y) (lr.2 + env.scroll_y)) t1
      (rowsOK_congr (render_rows_model _ t fl t1 hp) hok))
  obtain ⟨sc, t2⟩ := q
  simp only [render_lines, hp, hq]
  rfl

/-- C6: width conservation, confirmed — every line returned by
render_lines has total styled-character width exactly the content
region's width (the viewport width supplied by the host), whatever the
requested ranges and however the column widths compare to it: the line
composer always pads or truncates each composed line to that width. -/
theorem C6_width_conservation (env : RenderEnv) (t : DataTable) (lr cr : Int × Int)
    (res : List Line × DataTable) (h : render_lines env t lr cr = some res) :
    res.1.map (fun l => l.length) = List.replicate res.1.length env.contentWidth := by
  have hall : ∀ l ∈ res.1, l.length = env.contentWidth := by
    simp only [render_lines] at h
    split at h
    · exact absurd h (by simp)
    · rename_i fl t1 hf
      split at h
      · exact absurd h (by simp)
      · rename_i sc t2 hs2
        simp only [Option.some.injEq] at h
        subst h
        intro l hl
        have hl' : l ∈ List.map (applyStyle env.baseStyle)
            (if fl.isEmpty = true then sc else fl ++ List.drop t.fixed_rows sc) := hl
        obtain ⟨l0, hl0, rfl⟩ := List.mem_map.mp hl'
        rw [applyStyle_length]
        split at hl0
        · exact render_rows_all_length _ t1 sc t2 hs2 l0 hl0
        · rcases List.mem_append.mp hl0 with h0 | h0
          · exact render_rows_all_length _ t fl t1 hf l0 h0
          · exact render_rows_all_length _ t1 sc t2 hs2 l0 (List.mem_of_mem_drop h0)
  have hm : ∀ b ∈ res.1.map (fun l => l.length), b = env.contentWidth := by
    intro b hb
    obtain ⟨l, hl, rfl⟩ := List.mem_map.mp hb
    exact hall l hl
  rw [List.eq_replicate_of_mem hm, List.length_map]

/-- Witness for C6: a concrete one-column render whose single output line has the content width. -/
theorem C6_witness :
    render_lines envC6 tC6 (0, 1) (0, 3) = some ([lineA], tC6') ∧
      ([lineA] : List Line).map (fun l => l.length) =
        List.replicate ([lineA] : List Line).length envC6.contentWidth :=
  ⟨by decide, C6_width_conservation envC6 tC6 (0, 1) (0, 3) ([lineA], tC6') (by decide)⟩

/-- C7: cache transparency, confirmed — when every cache entry is
consistent with the current model (which is exactly the situation with
no intervening model mutation, since entries are created as fresh
renders of the model) and columns sharing an index agree on width,
rendering with the warm cache and rendering with a cleared cache give
identical output lines. -/
theorem C7_cache_transparency (env : RenderEnv) (t : DataTable) (lr cr : Int × Int)
    (hw : WC t) (hcc : CC t) :
    (render_lines env t lr cr).map (fun p => p.1) =
      (render_lines env (clearCache t) lr cr).map (fun p => p.1) := by
  have hcc0 : CC (clearCache t) := by
    intro e he
    exact absurd he (List.not_mem_nil e)
  have hw0 : WC (clearCache t) := hw
  rw [render_lines_fst_eq env t lr cr hw hcc,
    render_lines_fst_eq env (clearCache t) lr cr hw0 hcc0]
  exact render_lines_pure_congr
    (show ModelEq t (clearCache t) from ⟨rfl, rfl, rfl, rfl, rfl, rfl, rfl⟩) env lr cr

/-- Witness for C7: a table with a warm, model-consistent cache renders identically to the cleared-cache render. -/
theorem C7_witness :
    WC tC7 ∧ CC tC7 ∧
      (render_lines envC6 tC7 (0, 1) (0, 3)).map (fun p => p.1) =
        (render_lines envC6 (clearCache tC7) (0, 1) (0, 3)).map (fun p => p.1) :=
  ⟨by decide, by decide, C7_cache_transparency envC6 tC7 (0, 1) (0, 3) (by decide) (by decide)⟩

theorem freshEntry_congr {t1 t2 : DataTable} {e : (Int × Nat) × Line}
    (h : ModelEq t1 t2) (hf : FreshEntry t2 e) : FreshEntry t1 e := by
  obtain ⟨col, hmc, hidx, cell, hget, hval⟩ := hf
  refine ⟨col, ?_, hidx, cell, ?_, hval⟩
  · rw [h.1]
    exact hmc
  · rw [get_row_congr h]
    exact hget

theorem cacheGrows_trans {a b c : DataTable} (hab : ModelEq a b)
    (g1 : cacheGrows a b) (g2 : cacheGrows b c) : cacheGrows a c := by
  intro e he
  rcases g2 e he with h | h
  · exact g1 e h
  · exact Or.inr (freshEntry_congr hab h)

theorem render_cell_grows {t : DataTable} {y : Int} {col : Column} {l : Line} {t' : DataTable}
    (hmem : col ∈ t.columns) (h : render_cell t y col = some (l, t')) : cacheGrows t t' := by
  rcases render_cell_cases t y col with ⟨l', hc, he⟩ | ⟨hc, ⟨hg, he⟩ | ⟨cell, hg, he⟩⟩
  · rw [he] at h
    simp only [Option.some.injEq, Prod.mk.injEq] at h
    obtain ⟨-, rfl⟩ := h
    exact fun e he' => Or.inl he'
  · rw [he] at h
    cases h
  · rw [he] at h
    simp only [Option.some.injEq, Prod.mk.injEq] at h
    obtain ⟨-, rfl⟩ := h
    intro e he'
    rcases cacheSet_mem he' with rfl | hold
    · exact Or.inr ⟨col, hmem, rfl, cell, hg, rfl⟩
    · exact Or.inl hold

theorem render_cells_grows (y : Int) :
    ∀ (cols : List Column) (t : DataTable) (r : List Line) (t' : DataTable),
      (∀ c ∈ cols, c ∈ t.columns) →
      render_cells t y cols = some (r, t') → cacheGrows t t' := by
  intro cols
  induction cols with
  | nil =>
    intro t r t' _ h
    simp only [render_cells, Option.some.injEq, Prod.mk.injEq] at h
    obtain ⟨-, rfl⟩ := h
    exact fun e he => Or.inl he
  | cons col rest ih =>
    intro t r t' hsub h
    simp only [render_cells] at h
    split at h
    · exact absurd h (by simp)
    · rename_i l t1 hcell
      split at h
      · exact absurd h (by simp)
      · rename_i ls t2 hrest
        simp only [Option.some.injEq, Prod.mk.injEq] at h
        obtain ⟨-, rfl⟩ := h
        have hmem : col ∈ t.columns := hsub col (List.mem_cons_self _ _)
        have hme := render_cell_model hcell
        exact cacheGrows_trans hme (render_cell_grows hmem hcell)
          (ih t1 ls _ (fun c hc => by rw [← hme.1]; exact hsub c (List.mem_cons_of_mem _ hc)) hrest)

theorem render_line_grows {w : Nat} {hsy : Style} {t : DataTable} {y x1 x2 : Int}
    {l : Line} {t' : DataTable} (h : render_line w hsy t y x1 x2 = some (l, t')) :
    cacheGrows t t' := by
  simp only [render_line] at h
  split at h
  · exact absurd h (by simp)
  · rename_i cs t1 hcells
    simp only [Option.some.injEq, Prod.mk.injEq] at h
    obtain ⟨-, rfl⟩ := h
    exact render_cells_grows y t.columns t cs _ (fun c hc => hc) hcells

theorem render_rows_grows {w : Nat} {hsy : Style} {x1 x2 : Int} :
    ∀ (ys : List Int) (t : DataTable) (r : List Line) (t' : DataTable),
      render_rows w hsy t ys x1 x2 = some (r, t') → cacheGrows t t' := by
  intro ys
  induction ys with
  | nil =>
    intro t r t' h
    simp only [render_rows, Option.some.injEq, Prod.mk.injEq] at h
    obtain ⟨-, rfl⟩ := h
    exact fun e he => Or.inl he
  | cons y ys ih =>
    intro t r t' h
    simp only [render_rows] at h
    split at h
    · exact absurd h (by simp)
    · rename_i l t1 hline
      split at h
      · exact absurd h (by simp)
      · rename_i ls t2 hrest
        simp only [Option.some.injEq, Prod.mk.injEq] at h
        obtain ⟨-, rfl⟩ := h
        exact cacheGrows_trans (render_line_model hline) (render_line_grows hline)
          (ih t1 ls _ hrest)

/-- C10: rendering is read-only on the table model, confirmed — a
successful render_lines call leaves every model field (columns, data,
row_count, show_header, fixed settings and virtual size) unchanged, and
the only mutation is to the cell render cache, where every entry of the
final cache is either an entry of the initial cache or a fresh render of
the unchanged model (entries may only be dropped for capacity). -/
theorem C10_frame (env : RenderEnv) (t : DataTable) (lr cr : Int × Int)
    (res : List Line × DataTable) (h : render_lines env t lr cr = some res) :
    ModelEq t res.2 ∧ cacheGrows t res.2 := by
  simp only [render_lines] at h
  split at h
  · exact absurd h (by simp)
  · rename_i fl t1 hf
    split at h
    · exact absurd h (by simp)
    · rename_i sc t2 hs2
      simp only [Option.some.injEq] at h
      subst h
      have m1 := render_rows_model _ t fl t1 hf
      have m2 := render_rows_model _ t1 sc t2 hs2
      exact ⟨modelEq_trans m1 m2,
        cacheGrows_trans m1 (render_rows_grows _ t fl t1 hf) (render_rows_grows _ t1 sc t2 hs2)⟩

/-- Witness for C10: a concrete render evaluated against the frame property. -/
theorem C10_witness :
    render_lines envC6 tC6 (0, 1) (0, 3) = some ([lineA], tC6') ∧
      (ModelEq tC6 (([lineA], tC6') : List Line × DataTable).2 ∧
        cacheGrows tC6 (([lineA], tC6') : List Line × DataTable).2) :=
  ⟨by decide, C10_frame envC6 tC6 (0, 1) (0, 3) ([lineA], tC6') (by decide)⟩

theorem add_column_columns (t : DataTable) (label : CellValue) (w : Nat) :
    (add_column t label w).columns =
      t.columns ++ [{ label := label, width := w, index := t.columns.length }] := rfl

theorem add_column_data (t : DataTable) (label : CellValue) (w : Nat) :
    (add_column t label w).data = t.data := rfl

theorem add_column_cache (t : DataTable) (label : CellValue) (w : Nat) :
    (add_column t label w).cellRenderCache = t.cellRenderCache := rfl

theorem add_row_columns (t : DataTable) (cells : Row) :
    (add_row t cells).columns = t.columns := rfl

theorem add_row_data (t : DataTable) (cells : Row) :
    (add_row t cells).data = dictSet t.data (t.row_count : Int) cells := rfl

theorem add_row_cache (t : DataTable) (cells : Row) :
    (add_row t cells).cellRenderCache = t.cellRenderCache := rfl

theorem Built_rowsOK {t : DataTable} (hb : Built t) : rowsOK t := by
  induction hb with
  | init sh fr fc =>
    exact ⟨fun p hp => absurd hp (List.not_mem_nil p), fun c hc => absurd hc (List.not_mem_nil c)⟩
  | addCol t1 label w hb hd ih =>
    constructor
    · intro p hp
      rw [add_column_data, hd] at hp
      exact absurd hp (List.not_mem_nil p)
    · intro c hc
      rw [add_column_columns] at hc ⊢
      rw [List.length_append]
      rcases List.mem_append.mp hc with h1 | h1
      · have := ih.2 c h1
        simp only [List.length_cons, List.length_nil]
        omega
      · have hcol : c = { label := label, width := w, index := t1.columns.length } := by
          simpa using h1
        rw [hcol]
        simp
  | addRow t1 cells hb hlen ih =>
    constructor
    · intro p hp
      rw [add_row_data] at hp
      rw [add_row_columns]
      rcases dictSet_mem hp with h1 | rfl
      · exact ih.1 p h1
      · exact hlen
    · intro c hc
      rw [add_row_columns] at hc ⊢
      exact ih.2 c hc

theorem Built_cache {t : DataTable} (hb : Built t) : t.cellRenderCache = [] := by
  induction hb with
  | init sh fr fc => rfl
  | addCol t1 label w hb hd ih =>
    rw [add_column_cache]
    exact ih
  | addRow t1 cells hb hlen ih =>
    rw [add_row_cache]
    exact ih

/-- C9 amended: for every table built by add_column and add_row calls in
which each added row supplies one value per column defined at that time
and no column is added after any row, every render_lines request over
any line and column ranges returns a result (no exception: every Python
subscript taken on the render path is in range); and with the header
SHOWN, a display row with no stored data row renders each cell through
the blank fallback (the render of the empty cell value). With the
header hidden the blank-fallback clause of the claim fails: get_row's
offset slip resolves every display row to key 0, so out-of-range rows
re-render row 0's data instead of blanks (see the counterexample). -/
theorem C9_amended :
    (∀ t, Built t → ∀ (env : RenderEnv) (lr cr : Int × Int),
        (render_lines env t lr cr).isSome) ∧
      (∀ (t : DataTable) (y : Int) (col : Column), Built t → t.show_header = true →
        col ∈ t.columns → y ≠ 0 → dictGet t.data (y - 1) = none →
        (render_cell t y col).map (fun p => p.1) = some (renderCellInto [] col.width)) := by
  constructor
  · intro t hb env lr cr
    exact render_lines_isSome env t lr cr (Built_rowsOK hb)
  · intro t y col hb hsh hmem hy hget
    have hok := Built_rowsOK hb
    have hcache := Built_cache hb
    have hrow : get_row t y = t.columns.map (fun _ => ([] : CellValue)) := by
      simp [get_row, hsh, hy, hget]
    have hgot : (get_row t y).get? col.index = some ([] : CellValue) := by
      rw [hrow, List.get?_map]
      cases hcg : t.columns.get? col.index with
      | none =>
        rw [List.get?_eq_none] at hcg
        have := hok.2 col hmem
        omega
      | some c' => rfl
    rcases render_cell_cases t y col with ⟨l, hc, he⟩ | ⟨hc, ⟨hg, he⟩ | ⟨cell, hg, he⟩⟩
    · rw [hcache] at hc
      simp [cacheGet] at hc
    · rw [hg] at hgot
      cases hgot
    · rw [he]
      rw [hg] at hgot
      have hcell : cell = [] := Option.some.inj hgot
      rw [hcell]
      rfl

/-- C9 counterexample: a well-built table with the header hidden (one
column of width 3, one stored row with value X, no pinned rows) renders
the out-of-range display row 5 as the row-0 data (the characters
space-X-space), not as blank cells: the get_row offset slip makes every
display row resolve to key 0 when the header is hidden. -/
theorem C9_counterexample :
    (render_lines envC9c tC9c (5, 6) (0, 3)).map
        (fun r => r.1.map (fun l => l.map (fun p => p.1))) =
      some [[' ', 'X', ' ']] ∧
      ([' ', 'X', ' '] : List Char) ≠ [' ', ' ', ' '] := by decide

/-- Witness for C9: a concrete built table rendering an out-of-range display row, and a blank-fallback cell render with the header shown. -/
theorem C9_amended_witness :
    (render_lines envC6 tC9 (0, 3) (0, 5)).isSome ∧
      (render_cell tC9 5 colC9).map (fun p => p.1) = some (renderCellInto [] colC9.width) := by
  have hb : Built tC9 :=
    Built.addRow (add_column (initTable true 1 1) (['A']) 3) [(['x'])]
      (Built.addCol (initTable true 1 1) (['A']) 3 (Built.init true 1 1) rfl) (by decide)
  exact ⟨C9_amended.1 tC9 hb envC6 (0, 3) (0, 5),
    C9_amended.2 tC9 5 colC9 hb (by decide) (by decide) (by decide) (by decide)⟩

/-- C5 counterexample: with one pinned row and one pinned column, the
pinned row's rendering at horizontal scroll 1 differs from its rendering
at zero scroll: the pinned rows are rendered with the scroll-translated
horizontal window, so only their fixed-column band is scroll invariant,
not the whole row. -/
theorem C5_counterexample :
    (render_lines envC5a tC5 (0, 1) (0, 6)).map (fun r => r.1.take tC5.fixed_rows) ≠
      (render_lines envC5b tC5 (0, 1) (0, 6)).map (fun r => r.1.take tC5.fixed_rows) := by
  decide

/-- C5 amended: (a) the pinned rows are invariant under the vertical
scroll offset and the requested line range: the first fixed_rows output
lines agree between any two renders from the same state that share the
horizontal data (column range and horizontal scroll); (b) the fixed
column band — the first fixed_width styled characters of every output
line — never depends on the horizontal window: two renders from the
same state sharing the vertical data but with any two column ranges and
horizontal scrolls agree on every line's first fixed_width characters
(for states whose cache entries have their column's width, as every
cache the renderer builds does). The remainder of a pinned row does
scroll horizontally — that is what the counterexample exhibits. -/
theorem C5_amended :
    (∀ (w : Nat) (hsy bs : Style) (sx sy sy' : Int) (t : DataTable)
        (lr lr' cr : Int × Int) (r r' : List Line × DataTable),
        render_lines ⟨w, hsy, bs, sx, sy⟩ t lr cr = some r →
        render_lines ⟨w, hsy, bs, sx, sy'⟩ t lr' cr = some r' →
        r.1.take t.fixed_rows = r'.1.take t.fixed_rows) ∧
      (∀ (w : Nat) (hsy bs : Style) (sx sx' sy : Int) (t : DataTable)
        (lr cr cr' : Int × Int) (r r' : List Line × DataTable),
        WC t → SZ t →
        render_lines ⟨w, hsy, bs, sx, sy⟩ t lr cr = some r →
        render_lines ⟨w, hsy, bs, sx', sy⟩ t lr cr' = some r' →
        r.1.map (fun l => l.take (fixedWidthN t)) =
          r'.1.map (fun l => l.take (fixedWidthN t))) := by
  constructor
  · intro w hsy bs sx sy sy' t lr lr' cr r r' h h'
    simp only [render_lines] at h h'
    rcases hf : render_rows w hsy t ((List.range t.fixed_rows).map Int.ofNat)
        (cr.1 + sx) (cr.2 + sx) with _ | ⟨fl, t1⟩
    · rw [hf] at h
      exact absurd h (by simp)
    rw [hf] at h h'
    dsimp only at h h'
    rcases hsc : render_rows w hsy t1 (intRange (lr.1 + sy) (lr.2 + sy))
        (cr.1 + sx) (cr.2 + sx) with _ | ⟨sc, t2⟩
    · rw [hsc] at h
      exact absurd h (by simp)
    rw [hsc] at h
    dsimp only at h
    rcases hsc' : render_rows w hsy t1 (intRange (lr'.1 + sy') (lr'.2 + sy'))
        (cr.1 + sx) (cr.2 + sx) with _ | ⟨sc', t2'⟩
    · rw [hsc'] at h'
      exact absurd h' (by simp)
    rw [hsc'] at h'
    dsimp only at h'
    simp only [Option.some.injEq] at h h'
    subst h
    subst h'
    dsimp only
    have hfl : fl.length = t.fixed_rows := by
      rw [render_rows_length _ t fl t1 hf]
      simp
    by_cases hfe : fl.isEmpty = true
    · rw [List.isEmpty_iff] at hfe
      subst hfe
      have h0 : t.fixed_rows = 0 := by simpa using hfl.symm
      simp [h0]
    · rw [if_neg hfe, if_neg hfe]
      rw [List.map_append, List.map_append]
      rw [List.take_append_of_le_length (by simp [hfl]),
        List.take_append_of_le_length (by simp [hfl])]
  · intro w hsy bs sx sx' sy t lr cr cr' r r' hw hsz h h'
    simp only [render_lines] at h h'
    rcases hrl : render_rows w hsy t ((List.range t.fixed_rows).map Int.ofNat)
        (cr.1 + sx) (cr.2 + sx) with _ | ⟨fl, t1⟩
    · rw [hrl] at h
      exact absurd h (by simp)
    rw [hrl] at h
    dsimp only at h
    rcases hrl' : render_rows w hsy t ((List.range t.fixed_rows).map Int.ofNat)
        (cr'.1 + sx') (cr'.2 + sx') with _ | ⟨fl', t1'⟩
    · rw [hrl'] at h'
      exact absurd h' (by simp)
    rw [hrl'] at h'
    dsimp only at h'
    obtain ⟨hflmap, heq⟩ := render_rows_x _ t fl fl' t1 t1' hw hsz hrl hrl'
    rw [heq] at hrl' h'
    have hme := render_rows_model _ t fl t1 hrl
    have hw1 : WC t1 := WC_congr hme hw
    have hsz1 : SZ t1 := render_rows_SZ _ t fl t1 hw hsz hrl
    rcases hsc : render_rows w hsy t1 (intRange (lr.1 + sy) (lr.2 + sy))
        (cr.1 + sx) (cr.2 + sx) with _ | ⟨sc, t2⟩
    · rw [hsc] at h
      exact absurd h (by simp)
    rw [hsc] at h
    dsimp only at h
    rcases hsc' : render_rows w hsy t1 (intRange (lr.1 + sy) (lr.2 + sy))
        (cr'.1 + sx') (cr'.2 + sx') with _ | ⟨sc', t2'⟩
    · rw [hsc'] at h'
      exact absurd h' (by simp)
    rw [hsc'] at h'
    dsimp only at h'
    obtain ⟨hscmap, heq2⟩ := render_rows_x _ t1 sc sc' t2 t2' hw1 hsz1 hsc hsc'
    rw [fixedWidthN_congr (modelEq_symm hme)] at hscmap
    simp only [Option.some.injEq] at h h'
    subst h
    subst h'
    dsimp only
    rw [List.map_map, List.map_map]
    have hcomp : ((fun l : Line => l.take (fixedWidthN t)) ∘ applyStyle bs) =
        (applyStyle bs ∘ (fun l : Line => l.take (fixedWidthN t))) := by
      funext l
      exact applyStyle_take bs l (fixedWidthN t)
    rw [hcomp, ← List.map_map, ← List.map_map]
    congr 1
    have hlen : fl.length = fl'.length := by
      rw [render_rows_length _ t fl t1 hrl, render_rows_length _ t fl' t1 hrl']
    by_cases hfe : fl.isEmpty = true
    · rw [List.isEmpty_iff] at hfe
      subst hfe
      have hfe2 : fl' = [] := List.length_eq_zero.mp (by simpa using hlen.symm)
      subst hfe2
      simpa using hscmap
    · have hfe2 : ¬ fl'.isEmpty = true := by
        intro hcon
        rw [List.isEmpty_iff] at hcon
        subst hcon
        exact hfe (by rw [List.isEmpty_iff]; exact List.length_eq_zero.mp (by simpa using hlen))
      rw [if_neg hfe, if_neg hfe2, List.map_append, List.map_append, hflmap,
        List.map_drop, List.map_drop, hscmap]

/-- Witness for C5: concrete renders discharging both parts — a render pair differing only in vertical scroll and line range, and a render pair differing only in horizontal scroll. -/
theorem C5_amended_witness :
    (render_lines ⟨1, hsty, bsty, 0, 0⟩ tC5wa (0, 1) (0, 1) =
        some ([[(' ', some styHB)]], tC5wa) ∧
      render_lines ⟨1, hsty, bsty, 0, 7⟩ tC5wa (2, 3) (0, 1) =
        some ([[(' ', some styHB)]], tC5wa) ∧
      (([[(' ', some styHB)]], tC5wa) : List Line × DataTable).1.take tC5wa.fixed_rows =
        (([[(' ', some styHB)]], tC5wa) : List Line × DataTable).1.take tC5wa.fixed_rows) ∧
    (WC tC5wb ∧ SZ tC5wb ∧
      render_lines ⟨3, hsty, bsty, 0, 0⟩ tC5wb (0, 1) (0, 3) = some ([lineA], tC5wb') ∧
      render_lines ⟨3, hsty, bsty, 5, 0⟩ tC5wb (0, 1) (0, 3) = some ([lineA], tC5wb') ∧
      (([lineA], tC5wb') : List Line × DataTable).1.map (fun l => l.take (fixedWidthN tC5wb)) =
        (([lineA], tC5wb') : List Line × DataTable).1.map (fun l => l.take (fixedWidthN tC5wb))) := by
  constructor
  · have h1 : render_lines ⟨1, hsty, bsty, 0, 0⟩ tC5wa (0, 1) (0, 1) =
        some ([[(' ', some styHB)]], tC5wa) := by decide
    have h2 : render_lines ⟨1, hsty, bsty, 0, 7⟩ tC5wa (2, 3) (0, 1) =
        some ([[(' ', some styHB)]], tC5wa) := by decide
    exact ⟨h1, h2, C5_amended.1 1 hsty bsty 0 0 7 tC5wa (0, 1) (2, 3) (0, 1) _ _ h1 h2⟩
  · have h3 : render_lines ⟨3, hsty, bsty, 0, 0⟩ tC5wb (0, 1) (0, 3) =
        some ([lineA], tC5wb') := by decide
    have h4 : render_lines ⟨3, hsty, bsty, 5, 0⟩ tC5wb (0, 1) (0, 3) =
        some ([lineA], tC5wb') := by decide
    exact ⟨by decide, by decide, h3, h4,
      C5_amended.2 3 hsty bsty 0 5 0 tC5wb (0, 1) (0, 3) (0, 3) _ _
        (by decide) (by decide) h3 h4⟩
